import Mathlib

/-!
Verification of the scraping pipeline of this repository: price/currency
text parsing, the price strategy chain, listing discovery, per-item fault
isolation, keyed upsert persistence, discount derivation, CLI exit
behaviour and the statistics endpoint.  Each definition is a shallow
embedding of the corresponding code in src/scraper.py or
src/api_server.py; strings are lists of characters and numeric values
are rationals.
-/

namespace Scraper

/-- Whitespace set used by Python str.strip and the regex class \s (ASCII). -/
def pySpace (c : Char) : Bool :=
  c == ' ' || c == '\t' || c == '\n' || c == '\r' || c == '\x0b' || c == '\x0c'

/-- Python str.strip: drop whitespace from both ends. -/
def pyStrip (s : List Char) : List Char :=
  ((s.dropWhile pySpace).reverse.dropWhile pySpace).reverse

/-- The currency symbol class of the parser regexes in extract_price_value. -/
def isCurrency (c : Char) : Bool :=
  c == '$' || c == '£' || c == '€' || c == '¥'

/-- Character class [\d,] appearing in the numeric patterns. -/
def isDigitOrComma (c : Char) : Bool :=
  c.isDigit || c == ','

/-- Character class [\s:] consumed after a noise marker. -/
def isSpaceColon (c : Char) : Bool :=
  pySpace c || c == ':'

/-- Case-insensitive literal match at the head of the text; on success
returns the remaining suffix. -/
def matchCI : List Char → List Char → Option (List Char)
  | [], s => some s
  | _ :: _, [] => none
  | p :: ps, c :: cs => if p.toLower == c.toLower then matchCI ps cs else none

/-- The noise-marker alternatives of the anchored substitution regex in
extract_price_value, in the order they appear in the source. -/
def noiseMarkers : List (List Char) :=
  ["Price".data, "From".data, "Save".data, "Limited time deal".data,
   "List Price".data, "List:".data]

/-- Try each noise marker at the head of the text in order; the first that
matches is removed together with the following run of [\s:] characters. -/
def stripNoiseWith : List (List Char) → List Char → Option (List Char)
  | [], _ => none
  | p :: ps, s =>
    match matchCI p s with
    | some rest => some (rest.dropWhile isSpaceColon)
    | none => stripNoiseWith ps s

/-- The anchored case-insensitive substitution of the noise markers: at
most one marker is removed, from the start of the text. -/
def stripNoise (s : List Char) : List Char :=
  (stripNoiseWith noiseMarkers s).getD s

/-- Remove commas, as price_match.group(1).replace applied in the source. -/
def stripCommas (s : List Char) : List Char :=
  s.filter (fun c => !(c == ','))

/-- Numeric value of a digit string. -/
def digitsToNat (s : List Char) : ℕ :=
  s.foldl (fun n c => 10 * n + (c.toNat - '0'.toNat)) 0

/-- Python float() applied to a captured group after comma removal.  The
groups matched by the patterns consist of digits and at most one dot;
parsing succeeds exactly when at least one digit is present. -/
def parseFloat (s : List Char) : Option ℚ :=
  let intPart := s.takeWhile Char.isDigit
  let rest := s.dropWhile Char.isDigit
  match rest with
  | [] => if intPart.isEmpty then none else some (digitsToNat intPart)
  | '.' :: frac =>
    if frac.all Char.isDigit then
      if intPart.isEmpty && frac.isEmpty then none
      else some ((digitsToNat intPart : ℚ) + (digitsToNat frac : ℚ) / (10 ^ frac.length))
    else none
  | _ => none

/-- Match of the first numeric pattern (currency symbol, optional
whitespace, then [\d,]+ with optional fraction) at the given position,
returning the captured group. -/
def pat1At : List Char → Option (List Char)
  | [] => none
  | c :: rest =>
    if isCurrency c then
      let t := rest.dropWhile pySpace
      let run := t.takeWhile isDigitOrComma
      if run.isEmpty then none
      else
        match t.dropWhile isDigitOrComma with
        | '.' :: v => some (run ++ '.' :: v.takeWhile Char.isDigit)
        | _ => some run
    else none

/-- Match of the second numeric pattern ([\d,]+ with optional fraction,
optional whitespace, then a currency symbol) at the given position. -/
def pat2At (s : List Char) : Option (List Char) :=
  let run := s.takeWhile isDigitOrComma
  if run.isEmpty then none
  else
    match s.dropWhile isDigitOrComma with
    | '.' :: v =>
      let ds := v.takeWhile Char.isDigit
      match ((v.dropWhile Char.isDigit).dropWhile pySpace) with
      | c :: _ => if isCurrency c then some (run ++ '.' :: ds) else none
      | [] => none
    | u =>
      match u.dropWhile pySpace with
      | c :: _ => if isCurrency c then some run else none
      | [] => none

/-- Match of the third numeric pattern (a bare [\d,]+ with optional
fraction) at the given position. -/
def pat3At (s : List Char) : Option (List Char) :=
  let run := s.takeWhile isDigitOrComma
  if run.isEmpty then none
  else
    match s.dropWhile isDigitOrComma with
    | '.' :: v => some (run ++ '.' :: v.takeWhile Char.isDigit)
    | _ => some run

/-- re.search: try the pattern at each position left to right and return
the first (leftmost) captured group. -/
def searchFrom (f : List Char → Option (List Char)) : List Char → Option (List Char)
  | [] => f []
  | c :: rest =>
    match f (c :: rest) with
    | some g => some g
    | none => searchFrom f rest

/-- One iteration of the pattern loop of extract_price_value: search the
pattern, strip commas from the captured group, parse it as a float and
keep the value only when it is strictly positive. -/
def tryPattern (f : List Char → Option (List Char)) (t : List Char) : Option ℚ :=
  match searchFrom f t with
  | some g =>
    match parseFloat (stripCommas g) with
    | some v => if 0 < v then some v else none
    | none => none
  | none => none

/-- PriceExtractor.extract_price_value: strip, remove one noise marker,
strip again, take the first currency symbol (default the dollar), then
try the three numeric patterns in order and return the first strictly
positive parsed value. -/
def extract_price_value (s : List Char) : Option ℚ × Char :=
  if s.isEmpty then (none, '$')
  else
    let t1 := pyStrip s
    let t2 := pyStrip (stripNoise t1)
    let currency :=
      match t2.find? isCurrency with
      | some c => c
      | none => '$'
    match tryPattern pat1At t2 with
    | some v => (some v, currency)
    | none =>
      match tryPattern pat2At t2 with
      | some v => (some v, currency)
      | none =>
        match tryPattern pat3At t2 with
        | some v => (some v, currency)
        | none => (none, currency)

/-! Price strategy chain (PriceExtractor.get_price).  The six strategies
inspect live browser state, so each is embedded as the value it would
return: a strictly positive price and currency on success, or nothing. -/

/-- The six strategy outcomes of PriceExtractor, in source order. -/
structure PriceMethods where
  try_options_text : Option (ℚ × Char)
  try_select_variant : Option (ℚ × Char)
  try_offscreen_elements : Option (ℚ × Char)
  try_visible_price : Option (ℚ × Char)
  try_javascript_search : Option (ℚ × Char)
  try_data_attributes : Option (ℚ × Char)

/-- The methods list built in get_price, in the order of the source. -/
def methodList (m : PriceMethods) : List (Option (ℚ × Char)) :=
  [m.try_options_text, m.try_select_variant, m.try_offscreen_elements,
   m.try_visible_price, m.try_javascript_search, m.try_data_attributes]

/-- The loop of get_price: invoke each method in order and return at the
first truthy result; also count how many methods were invoked. -/
def runMethods : List (Option (ℚ × Char)) → (ℚ × Char) × ℕ
  | [] => ((0, '$'), 0)
  | some r :: _ => (r, 1)
  | none :: rest =>
    let next := runMethods rest
    (next.1, next.2 + 1)

/-- PriceExtractor.get_price: if the availability indicator says
unavailable, short-circuit to the sentinel without invoking any method;
otherwise run the methods in order and fall back to the sentinel. -/
def get_price (unavailable : Bool) (m : PriceMethods) : (ℚ × Char) × ℕ :=
  if unavailable then ((0, '$'), 0)
  else runMethods (methodList m)

/-! Data model and persistence (ProductModel, DatabaseManager). -/

/-- The ProductModel dataclass of the source. -/
structure ProductModel where
  asin : String
  title : String
  rank : ℕ
  price : ℚ
  currency : Char
  list_price : Option ℚ
  discount_percent : Option ℚ
  rating : Option ℚ
  reviews_count : Option ℕ
  is_prime : Bool
  best_sellers_rank : Option String
  bullet_points : String
  main_image_url : Option String
deriving DecidableEq

/-- INSERT OR REPLACE keyed by the unique asin column: the conflicting
row, if any, is deleted and the new row is inserted. -/
def upsertRow (db : List ProductModel) (p : ProductModel) : List ProductModel :=
  db.filter (fun q => !(q.asin == p.asin)) ++ [p]

/-- DatabaseManager.save_product: the upsert runs inside a try/except, so
a failing write leaves the store unchanged and raises nothing. -/
def save_product (fails : Bool) (db : List ProductModel) (p : ProductModel) :
    List ProductModel :=
  if fails then db else upsertRow db p

/-! Per-item detail extraction and the scrape loop
(AmazonScraper.get_product_details, AmazonScraper.scrape_top_products). -/

/-- The details dictionary assembled by get_product_details; a field is
none when the corresponding key was never set. -/
structure Details where
  title : Option String := none
  price : Option ℚ := none
  currency : Option Char := none
  list_price : Option ℚ := none
  discount_percent : Option ℚ := none
  rating : Option ℚ := none
  reviews_count : Option ℕ := none
  is_prime : Option Bool := none
  best_sellers_rank : Option String := none
  bullet_points : Option String := none
  main_image_url : Option String := none
deriving DecidableEq

/-- Outcome of processing one item: an uncaught fault inside the loop
body, or the details dictionary returned by get_product_details. -/
inductive ItemStep where
  | crash : ItemStep
  | result : Details → ItemStep

/-- The ProductModel construction of the loop, with the defaults used by
details.get in the source. -/
def assembleProduct (asin : String) (rank : ℕ) (d : Details) : ProductModel :=
  { asin := asin
    title := d.title.getD "N/A"
    rank := rank
    price := d.price.getD 0
    currency := d.currency.getD '$'
    list_price := d.list_price
    discount_percent := d.discount_percent
    rating := d.rating
    reviews_count := d.reviews_count
    is_prime := d.is_prime.getD false
    best_sellers_rank := d.best_sellers_rank
    bullet_points := d.bullet_points.getD ""
    main_image_url := d.main_image_url }

/-- The per-item loop of scrape_top_products: ranks are assigned by
enumerate starting at 1; a crash or a missing title skips the item;
otherwise the product is saved and appended. Returns the products list
and the final store. -/
def processFrom (step : ℕ → ItemStep) (saveFails : ℕ → Bool) :
    ℕ → List String → List ProductModel → List ProductModel × List ProductModel
  | _, [], db => ([], db)
  | rank, asin :: rest, db =>
    match step rank with
    | ItemStep.crash => processFrom step saveFails (rank + 1) rest db
    | ItemStep.result d =>
      if d.title = none then processFrom step saveFails (rank + 1) rest db
      else
        let p := assembleProduct asin rank d
        let next := processFrom step saveFails (rank + 1) rest
          (save_product (saveFails rank) db p)
        (p :: next.1, next.2)

/-! Listing discovery: the asin collection loop of scrape_top_products. -/

/-- The keep condition of the collection loop: the attribute is present,
non-empty, and not whitespace-only. -/
def validAsin : Option String → Bool
  | none => false
  | some a => !a.data.isEmpty && !(pyStrip a.data).isEmpty

/-- The collection loop over the (already truncated) candidate list: skip
invalid or already seen identifiers, and stop as soon as the requested
count is reached. -/
def collectGo (max_products : ℕ) : List (Option String) → List String → List String
  | [], acc => acc
  | e :: rest, acc =>
    match e with
    | some a =>
      if validAsin (some a) && !acc.contains a then
        let acc2 := acc ++ [a]
        if max_products ≤ acc2.length then acc2
        else collectGo max_products rest acc2
      else collectGo max_products rest acc
    | none => collectGo max_products rest acc

/-- The asin collection of scrape_top_products: scan at most twice the
requested count of raw candidates. -/
def collectAsins (raw : List (Option String)) (max_products : ℕ) : List String :=
  collectGo max_products (raw.take (2 * max_products)) []

/-- Modelled from the spec: deduplication preserving first-seen order of
the valid candidates, used to characterise the collection loop. -/
def dedupValidFrom : List (Option String) → List String → List String
  | [], _ => []
  | e :: rest, seen =>
    match e with
    | some a =>
      if validAsin (some a) && !seen.contains a then
        a :: dedupValidFrom rest (seen ++ [a])
      else dedupValidFrom rest seen
    | none => dedupValidFrom rest seen

/-- scrape_top_products: discovery failure is caught by the outer
try/except and yields the empty batch; otherwise the collected asins are
processed one by one. -/
def scrape_top_products (discovery : Option (List (Option String)))
    (max_products : ℕ) (step : ℕ → ItemStep) (saveFails : ℕ → Bool) :
    List ProductModel × List ProductModel :=
  match discovery with
  | none => ([], [])
  | some raw => processFrom step saveFails 1 (collectAsins raw max_products) []

/-! CLI surface (main). -/

/-- main: exit 1 when no category URL argument is supplied; otherwise
every failure of the run is caught and the process falls through the
final summary printing, terminating with exit code 0.  Returns the exit
code together with the scraped products. -/
def mainRun (argv : List String) (discovery : Option (List (Option String)))
    (step : ℕ → ItemStep) (saveFails : ℕ → Bool) : ℕ × List ProductModel :=
  if argv.length < 2 then (1, [])
  else (0, (scrape_top_products discovery 5 step saveFails).1)

/-! List price and discount (get_product_details). -/

/-- Python round to the nearest integer, ties to even. -/
def roundHalfEven (q : ℚ) : ℤ :=
  let f := Rat.floor q
  let frac := q - (f : ℚ)
  if frac < 1 / 2 then f
  else if 1 / 2 < frac then f + 1
  else if f % 2 = 0 then f else f + 1

/-- Python round(x, 2). -/
def round2 (q : ℚ) : ℚ :=
  (roundHalfEven (q * 100) : ℚ) / 100

/-- The list-price block of get_product_details: the struck-through price
element text (none when the element is absent and the lookup raises) is
parsed with extract_price_value; the list price and the discount are
recorded only when the parsed list price is truthy and positive and the
extracted price is positive. -/
def list_price_fields (price : ℚ) (lpText : Option (List Char)) :
    Option ℚ × Option ℚ :=
  match lpText with
  | none => (none, none)
  | some t =>
    match (extract_price_value (pyStrip t)).1 with
    | none => (none, none)
    | some lp =>
      if ¬lp = 0 ∧ 0 < lp ∧ 0 < price then
        (some lp, some (round2 ((lp - price) / lp * 100)))
      else (none, none)

/-! Statistics endpoint (api_server.get_stats). -/

/-- A stored row as read by the API server; the numeric columns are
nullable in the schema. -/
structure DbRow where
  price : Option ℚ
  rating : Option ℚ
  is_prime : Bool
deriving DecidableEq

/-- The rows contributing to AVG(price) under WHERE price > 0: NULL and
non-positive prices are excluded. -/
def positivePrices (rows : List DbRow) : List ℚ :=
  rows.filterMap (fun r =>
    match r.price with
    | some v => if 0 < v then some v else none
    | none => none)

/-- The ratings contributing to AVG(rating) under WHERE rating IS NOT
NULL. -/
def knownRatings (rows : List DbRow) : List ℚ :=
  rows.filterMap (fun r => r.rating)

/-- SQL AVG over a result set: NULL on the empty set. -/
def sqlAvg (l : List ℚ) : Option ℚ :=
  if l.isEmpty then none else some (l.sum / l.length)

/-- The stats payload of the endpoint. -/
structure StatsResult where
  success : Bool
  total_products : ℕ
  average_price : ℚ
  average_rating : ℚ
  prime_products : ℕ
deriving DecidableEq

/-- api_server.get_stats: total row count, average over strictly positive
prices, average over non-null ratings, count of prime rows; a falsy
(NULL) average is reported as 0. -/
def get_stats (rows : List DbRow) : StatsResult :=
  { success := true
    total_products := rows.length
    average_price :=
      match sqlAvg (positivePrices rows) with
      | some v => if v = 0 then 0 else round2 v
      | none => 0
    average_rating :=
      match sqlAvg (knownRatings rows) with
      | some v => if v = 0 then 0 else round2 v
      | none => 0
    prime_products := rows.countP (fun r => r.is_prime) }

/-- A concrete product used to exercise the persistence contract. -/
def sampleProduct (title : String) : ProductModel :=
  { asin := "B07TEST123", title := title, rank := 1, price := 10, currency := '$',
    list_price := none, discount_percent := none, rating := none,
    reviews_count := none, is_prime := false, best_sellers_rank := none,
    bullet_points := "", main_image_url := none }

/-! Theorems. -/

lemma tryPattern_pos (f : List Char → Option (List Char)) (t : List Char) (v : ℚ)
    (h : tryPattern f t = some v) : 0 < v := by
  unfold tryPattern at h
  split at h
  · split at h
    · split at h
      · cases h; assumption
      · cases h
    · cases h
  · cases h

lemma extract_price_value_fst_pos (s : List Char) (v : ℚ)
    (h : (extract_price_value s).1 = some v) : 0 < v := by
  rw [extract_price_value] at h
  split at h
  · cases h
  · simp only at h
    split at h
    case _ w hw => cases h; exact tryPattern_pos _ _ _ hw
    case _ =>
      split at h
      case _ w hw => cases h; exact tryPattern_pos _ _ _ hw
      case _ =>
        split at h
        case _ w hw => cases h; exact tryPattern_pos _ _ _ hw
        case _ => cases h

lemma extract_price_value_snd (s : List Char) :
    (extract_price_value s).2 =
      if s.isEmpty then '$'
      else
        match (pyStrip (stripNoise (pyStrip s))).find? isCurrency with
        | some c => c
        | none => '$' := by
  rw [extract_price_value]
  split
  · rfl
  · simp only
    split <;> try rfl
    split <;> try rfl
    split <;> rfl

lemma extract_price_value_snd_isCurrency (s : List Char) :
    isCurrency (extract_price_value s).2 = true := by
  rw [extract_price_value_snd]
  split
  · rfl
  · split
    case _ c hc => exact List.find?_some hc
    case _ => rfl

lemma mem_pyStrip {c : Char} {s : List Char} (h : c ∈ pyStrip s) : c ∈ s := by
  unfold pyStrip at h
  rw [List.mem_reverse] at h
  have h2 := (List.dropWhile_sublist _).subset h
  rw [List.mem_reverse] at h2
  exact (List.dropWhile_sublist _).subset h2

lemma mem_matchCI {p s r : List Char} (h : matchCI p s = some r) :
    ∀ c ∈ r, c ∈ s := by
  induction p generalizing s with
  | nil =>
    unfold matchCI at h
    cases h
    exact fun c hc => hc
  | cons q qs ih =>
    cases s with
    | nil => cases h
    | cons a as =>
      unfold matchCI at h
      split at h
      · exact fun c hc => List.mem_cons_of_mem a (ih h c hc)
      · cases h

lemma mem_stripNoiseWith {ps : List (List Char)} {s r : List Char}
    (h : stripNoiseWith ps s = some r) : ∀ c ∈ r, c ∈ s := by
  induction ps with
  | nil => cases h
  | cons p pt ih =>
    unfold stripNoiseWith at h
    split at h
    case _ rest hm =>
      cases h
      exact fun c hc => mem_matchCI hm c ((List.dropWhile_sublist _).subset hc)
    case _ => exact ih h

lemma mem_stripNoise {c : Char} {s : List Char} (h : c ∈ stripNoise s) : c ∈ s := by
  unfold stripNoise at h
  rcases hm : stripNoiseWith noiseMarkers s with _ | r <;> rw [hm] at h
  · exact h
  · exact mem_stripNoiseWith hm c h

lemma extract_price_value_snd_default (s : List Char)
    (h : ∀ c ∈ s, isCurrency c = false) : (extract_price_value s).2 = '$' := by
  rw [extract_price_value_snd]
  split
  · rfl
  · have hn : (pyStrip (stripNoise (pyStrip s))).find? isCurrency = none := by
      rw [List.find?_eq_none]
      intro c hc
      have : c ∈ s := mem_pyStrip (mem_stripNoise (mem_pyStrip hc))
      simp [h c this]
    rw [hn]

/-- Claim C1: extract_price_value strips the noise markers
case-insensitively, takes the first currency symbol of the text (default
the dollar), tries the numeric patterns in the fixed order
symbol-number, number-symbol, bare number, and returns the first
strictly positive parsed value with that currency: the five reference
inputs evaluate as specified, every returned value is strictly positive,
the returned currency is always one of the four symbols, and it defaults
to the dollar when the text holds no symbol. -/
theorem extract_price_value_contract :
    (extract_price_value ("$12.99".data) = (some (1299 / 100 : ℚ), '$') ∧
      extract_price_value ("12.99$".data) = (some (1299 / 100 : ℚ), '$') ∧
      extract_price_value ("Price: $1,234.56".data) = (some (123456 / 100 : ℚ), '$') ∧
      extract_price_value ("3 options from $9.99".data) = (some (999 / 100 : ℚ), '$') ∧
      extract_price_value ("".data) = (none, '$')) ∧
    (∀ s v, (extract_price_value s).1 = some v → 0 < v) ∧
    (∀ s, isCurrency (extract_price_value s).2 = true) ∧
    (∀ s, (∀ c ∈ s, isCurrency c = false) → (extract_price_value s).2 = '$') :=
  ⟨⟨by with_unfolding_all rfl, by with_unfolding_all rfl, by with_unfolding_all rfl,
      by with_unfolding_all rfl, by with_unfolding_all rfl⟩,
    fun s v h => extract_price_value_fst_pos s v h,
    extract_price_value_snd_isCurrency,
    fun s h => extract_price_value_snd_default s h⟩

/-- Witness for the hypotheses of the C1 contract at concrete inputs. -/
theorem extract_price_value_contract_witness :
    0 < (1299 / 100 : ℚ) ∧ (extract_price_value ("no price here".data)).2 = '$' :=
  ⟨extract_price_value_contract.2.1 ("$12.99".data) (1299 / 100)
      (by with_unfolding_all rfl),
    extract_price_value_contract.2.2.2 ("no price here".data) (by decide)⟩

lemma runMethods_all_none (ms : List (Option (ℚ × Char))) (h : ∀ o ∈ ms, o = none) :
    runMethods ms = ((0, '$'), ms.length) := by
  induction ms with
  | nil => rfl
  | cons a t ih =>
    have ha := h a (List.mem_cons_self a t)
    subst ha
    unfold runMethods
    rw [ih (fun o ho => h o (List.mem_cons_of_mem _ ho))]
    rfl

lemma runMethods_first (ms : List (Option (ℚ × Char))) (i : ℕ) (r : ℚ × Char)
    (hi : ms.get? i = some (some r)) (hj : ∀ j, j < i → ms.get? j = some none) :
    runMethods ms = (r, i + 1) := by
  induction ms generalizing i with
  | nil => cases hi
  | cons a t ih =>
    cases i with
    | zero =>
      rw [List.get?_cons_zero] at hi
      cases hi
      rfl
    | succ k =>
      have h0 := hj 0 (Nat.succ_pos k)
      rw [List.get?_cons_zero] at h0
      cases h0
      rw [List.get?_cons_succ] at hi
      unfold runMethods
      rw [ih k hi (fun j hjk => by
        have := hj (j + 1) (Nat.succ_lt_succ hjk)
        rwa [List.get?_cons_succ] at this)]

/-- Claim C2: get_price invokes the six strategies strictly in the fixed
source order and short-circuits at the first one producing a result
(each strategy only ever produces strictly positive prices), never
invoking any later strategy; when every strategy produces nothing it
returns the sentinel (0, dollar) after invoking all six. -/
theorem get_price_chain_contract (m : PriceMethods) :
    (∀ i r, (methodList m).get? i = some (some r) →
        (∀ j, j < i → (methodList m).get? j = some none) →
        get_price false m = (r, i + 1) ∧ i + 1 ≤ 6) ∧
    ((∀ o ∈ methodList m, o = none) → get_price false m = ((0, '$'), 6)) := by
  constructor
  · intro i r hi hj
    constructor
    · show runMethods (methodList m) = (r, i + 1)
      exact runMethods_first _ i r hi hj
    · have hlen : i < (methodList m).length := by
        by_contra hge
        rw [List.get?_eq_none.mpr (Nat.le_of_not_lt hge)] at hi
        cases hi
      have h6 : i < 6 := by simpa [methodList] using hlen
      omega
  · intro h
    show runMethods (methodList m) = ((0, '$'), 6)
    have := runMethods_all_none _ h
    simpa [methodList] using this

/-- Witness for the C2 contract: strategies one and two produce nothing,
strategy three produces a price, so the chain returns it having invoked
exactly three strategies. -/
theorem get_price_chain_contract_witness :
    get_price false
        { try_options_text := none, try_select_variant := none,
          try_offscreen_elements := some (5, '$'), try_visible_price := none,
          try_javascript_search := none, try_data_attributes := none } =
      ((5, '$'), 2 + 1) ∧ 2 + 1 ≤ 6 :=
  (get_price_chain_contract _).1 2 (5, '$') rfl
    (fun j hj => by
      match j with
      | 0 => rfl
      | 1 => rfl
      | k + 2 => exact absurd hj (by omega))

lemma upsertRow_filter_self (db : List ProductModel) (p : ProductModel) :
    (upsertRow db p).filter (fun q => q.asin == p.asin) = [p] := by
  unfold upsertRow
  rw [List.filter_append, List.filter_filter]
  have h1 : db.filter (fun q => (q.asin == p.asin) && !(q.asin == p.asin)) = [] := by
    apply List.filter_eq_nil_iff.mpr
    intro a _
    cases h : a.asin == p.asin <;> simp [h]
  rw [h1]
  simp

lemma upsertRow_filter_other (db : List ProductModel) (p : ProductModel)
    (a : String) (ha : ¬a = p.asin) :
    (upsertRow db p).filter (fun q => q.asin == a) =
      db.filter (fun q => q.asin == a) := by
  unfold upsertRow
  rw [List.filter_append, List.filter_filter]
  have h2 : List.filter (fun q => q.asin == a) [p] = [] := by
    simp only [List.filter]
    have hf : (p.asin == a) = false := by
      simp only [beq_eq_false_iff_ne, ne_eq]
      intro h
      exact ha h.symm
    rw [hf]
  rw [h2, List.append_nil]
  apply List.filter_congr
  intro q _
  cases h : q.asin == a
  · simp [h]
  · have hqa : q.asin = a := by simpa using h
    have hnp : (q.asin == p.asin) = false := by
      simp only [beq_eq_false_iff_ne, ne_eq]
      rw [hqa]
      exact ha
    simp [h, hnp]

/-- Claim C5: saving a product fully replaces the row keyed by its
identifier: afterwards exactly one stored row carries that identifier
and it holds the saved field values, rows under other identifiers are
untouched, and saving twice under one identifier leaves exactly one row
with the second call's values. -/
theorem save_product_upsert_contract :
    (∀ db p, (save_product false db p).filter (fun q => q.asin == p.asin) = [p]) ∧
    (∀ db p a, ¬a = p.asin →
      (save_product false db p).filter (fun q => q.asin == a) =
        db.filter (fun q => q.asin == a)) ∧
    (∀ db p1 p2, p1.asin = p2.asin →
      (save_product false (save_product false db p1) p2).filter
          (fun q => q.asin == p2.asin) = [p2]) :=
  ⟨fun db p => upsertRow_filter_self db p,
    fun db p a ha => upsertRow_filter_other db p a ha,
    fun _ _ p2 _ => upsertRow_filter_self _ p2⟩

/-- Witness for the C5 contract: two saves under the same identifier with
different titles leave one row with the second title, and rows under a
different identifier are untouched. -/
theorem save_product_upsert_contract_witness :
    ((save_product false (save_product false [] (sampleProduct "first"))
        (sampleProduct "second")).filter
        (fun q => q.asin == (sampleProduct "second").asin) = [sampleProduct "second"]) ∧
    ((save_product false [] (sampleProduct "first")).filter (fun q => q.asin == "OTHER") =
      ([] : List ProductModel).filter (fun q => q.asin == "OTHER")) :=
  ⟨save_product_upsert_contract.2.2 [] (sampleProduct "first") (sampleProduct "second") rfl,
    save_product_upsert_contract.2.1 [] (sampleProduct "first") "OTHER" (by decide)⟩

lemma collectGo_eq_dedup (max_products : ℕ) :
    ∀ (l : List (Option String)) (acc : List String),
      acc.length < max_products →
      collectGo max_products l acc =
        acc ++ (dedupValidFrom l acc).take (max_products - acc.length) := by
  intro l
  induction l with
  | nil => intro acc _; simp [collectGo, dedupValidFrom]
  | cons e rest ih =>
    intro acc hacc
    cases e with
    | none => simpa [collectGo, dedupValidFrom] using ih acc hacc
    | some a =>
      by_cases hv : (validAsin (some a) && !acc.contains a) = true
      · rw [collectGo, dedupValidFrom]
        simp only [hv, if_true]
        by_cases hfull : max_products ≤ (acc ++ [a]).length
        · have hlen : max_products = acc.length + 1 := by
            simp at hfull
            omega
          rw [if_pos (by simpa using hfull)]
          rw [hlen]
          simp
        · rw [if_neg (by simpa using hfull)]
          have hlt : (acc ++ [a]).length < max_products := by
            simp at hfull ⊢
            omega
          rw [ih (acc ++ [a]) hlt]
          have harith : max_products - acc.length =
              (max_products - (acc ++ [a]).length) + 1 := by
            simp at hlt ⊢
            omega
          rw [harith]
          simp [List.take_cons]
      · rw [collectGo, dedupValidFrom]
        simp only [hv, if_false]
        simpa using ih acc hacc

lemma collectAsins_eq_dedup (raw : List (Option String)) (n : ℕ) :
    collectAsins raw n = (dedupValidFrom (raw.take (2 * n)) []).take n := by
  cases n with
  | zero => simp [collectAsins, collectGo]
  | succ k =>
    unfold collectAsins
    rw [collectGo_eq_dedup (k + 1) (raw.take (2 * (k + 1))) [] (by simp)]
    simp

lemma dedupValidFrom_nodup :
    ∀ (l : List (Option String)) (seen : List String),
      (∀ a ∈ dedupValidFrom l seen, seen.contains a = false) ∧
        (dedupValidFrom l seen).Nodup := by
  intro l
  induction l with
  | nil => intro seen; simp [dedupValidFrom]
  | cons e rest ih =>
    intro seen
    cases e with
    | none => simpa [dedupValidFrom] using ih seen
    | some a =>
      rw [dedupValidFrom]
      by_cases hv : (validAsin (some a) && !seen.contains a) = true
      · simp only [hv, if_true]
        obtain ⟨hex, hnd⟩ := ih (seen ++ [a])
        constructor
        · intro b hb
          rcases List.mem_cons.mp hb with hba | hbm
          · subst hba
            simp at hv
            simpa using hv.2
          · have := hex b hbm
            simp at this
            simpa using this.1
        · refine List.nodup_cons.mpr ⟨?_, hnd⟩
          intro hmem
          have := hex a hmem
          simp at this
      · simp only [hv, if_false]
        exact ih seen

/-- Claim C4: the asin collection scans at most twice the requested count
of raw candidates, skips blank or whitespace-only identifiers,
deduplicates preserving first-seen order, stops at the requested count,
and returns at most that many pairwise distinct identifiers; on the raw
sequence A, blank, B, A, C, D, B, E with requested count 3 it yields
exactly A, B, C. -/
theorem discovery_collect_contract :
    (∀ raw n, collectAsins raw n = (dedupValidFrom (raw.take (2 * n)) []).take n) ∧
    (∀ raw n, collectAsins raw n = collectAsins (raw.take (2 * n)) n) ∧
    (∀ raw n, (collectAsins raw n).length ≤ n) ∧
    (∀ raw n, (collectAsins raw n).Nodup) ∧
    collectAsins [some "A", some "", some "B", some "A", some "C", some "D",
        some "B", some "E"] 3 = ["A", "B", "C"] := by
  refine ⟨collectAsins_eq_dedup, ?_, ?_, ?_, by decide⟩
  · intro raw n
    unfold collectAsins
    rw [List.take_take, min_self]
  · intro raw n
    rw [collectAsins_eq_dedup]
    exact List.length_take_le n _
  · intro raw n
    rw [collectAsins_eq_dedup]
    exact ((dedupValidFrom_nodup (raw.take (2 * n)) []).2).sublist (List.take_sublist n _)

lemma processFrom_products (step : ℕ → ItemStep) (saveFails : ℕ → Bool) :
    ∀ (asins : List String) (rank : ℕ) (db : List ProductModel),
      (processFrom step saveFails rank asins db).1 =
        (asins.enumFrom rank).filterMap (fun ra =>
          match step ra.1 with
          | ItemStep.crash => none
          | ItemStep.result d =>
            if d.title = none then none
            else some (assembleProduct ra.2 ra.1 d)) := by
  intro asins
  induction asins with
  | nil => intro rank db; simp [processFrom, List.enumFrom]
  | cons a rest ih =>
    intro rank db
    rw [processFrom, List.enumFrom]
    rw [List.filterMap_cons]
    cases hs : step rank with
    | crash => simpa [hs] using ih (rank + 1) db
    | result d =>
      by_cases htd : d.title = none
      · simp only [hs, if_pos htd]
        exact ih (rank + 1) db
      · simp only [hs, if_neg htd]
        rw [ih (rank + 1) _]

lemma processFrom_db (step : ℕ → ItemStep) (saveFails : ℕ → Bool) :
    ∀ (asins : List String) (rank : ℕ) (db : List ProductModel),
      (processFrom step saveFails rank asins db).2 =
        (processFrom step saveFails rank asins db).1.foldl
          (fun acc p => save_product (saveFails p.rank) acc p) db := by
  intro asins
  induction asins with
  | nil => intro rank db; simp [processFrom]
  | cons a rest ih =>
    intro rank db
    rw [processFrom]
    cases hs : step rank with
    | crash => exact ih (rank + 1) db
    | result d =>
      by_cases htd : d.title = none
      · simp only [if_pos htd]
        exact ih (rank + 1) db
      · simp only [if_neg htd]
        rw [List.foldl_cons]
        exact ih (rank + 1) _

lemma processFrom_ranks (step : ℕ → ItemStep) (saveFails : ℕ → Bool) :
    ∀ (asins : List String) (rank : ℕ) (db : List ProductModel),
      (processFrom step saveFails rank asins db).1.map (fun p => p.rank) =
        (List.range' rank asins.length).filter (fun r =>
          match step r with
          | ItemStep.crash => false
          | ItemStep.result d => !(d.title = none : Bool)) := by
  intro asins
  induction asins with
  | nil => intro rank db; simp [processFrom]
  | cons a rest ih =>
    intro rank db
    rw [processFrom, List.length_cons, List.range'_succ, List.filter_cons]
    cases hs : step rank with
    | crash => simpa [hs] using ih (rank + 1) db
    | result d =>
      by_cases htd : d.title = none
      · simp [hs, htd, ih (rank + 1) db]
      · simp [hs, htd, assembleProduct, ih (rank + 1) _]

lemma processFrom_asins_sublist (step : ℕ → ItemStep) (saveFails : ℕ → Bool) :
    ∀ (asins : List String) (rank : ℕ) (db : List ProductModel),
      List.Sublist
        ((processFrom step saveFails rank asins db).1.map (fun p => p.asin)) asins := by
  intro asins
  induction asins with
  | nil => intro rank db; simp [processFrom]
  | cons a rest ih =>
    intro rank db
    rw [processFrom]
    cases hs : step rank with
    | crash => exact (ih (rank + 1) db).trans (List.sublist_cons_self a rest)
    | result d =>
      by_cases htd : d.title = none
      · simp only [if_pos htd]
        exact (ih (rank + 1) db).trans (List.sublist_cons_self a rest)
      · simp only [if_neg htd]
        rw [List.map_cons]
        exact List.Sublist.cons₂ a (ih (rank + 1) _)

lemma mem_upsertRow_self (db : List ProductModel) (p : ProductModel) :
    p ∈ upsertRow db p := by
  unfold upsertRow
  exact List.mem_append_right _ (List.mem_singleton_self p)

lemma mem_upsertRow_of_ne (db : List ProductModel) (p q : ProductModel)
    (hne : ¬q.asin = p.asin) (h : p ∈ db) : p ∈ upsertRow db q := by
  unfold upsertRow
  apply List.mem_append_left
  rw [List.mem_filter]
  refine ⟨h, ?_⟩
  rw [Bool.not_eq_true', beq_eq_false_iff_ne]
  exact fun hh => hne hh.symm

lemma mem_foldl_upsert_preserve :
    ∀ (l db : List ProductModel) (p : ProductModel), p ∈ db →
      (∀ q ∈ l, ¬q.asin = p.asin) → p ∈ l.foldl upsertRow db := by
  intro l
  induction l with
  | nil => intro db p hdb _; simpa using hdb
  | cons a t ih =>
    intro db p hdb hne
    rw [List.foldl_cons]
    exact ih _ p (mem_upsertRow_of_ne db p a (hne a (List.mem_cons_self a t)) hdb)
      (fun q hq => hne q (List.mem_cons_of_mem a hq))

lemma mem_foldl_upsert_self :
    ∀ (l db : List ProductModel) (p : ProductModel), p ∈ l →
      (l.map (fun q => q.asin)).Nodup → p ∈ l.foldl upsertRow db := by
  intro l
  induction l with
  | nil => intro db p hp; cases hp
  | cons a t ih =>
    intro db p hp hnd
    rw [List.map_cons, List.nodup_cons] at hnd
    rw [List.foldl_cons]
    rcases List.mem_cons.mp hp with hpa | hpt
    · subst hpa
      apply mem_foldl_upsert_preserve t _ p (mem_upsertRow_self db p)
      intro q hq hqp
      exact hnd.1 (hqp ▸ List.mem_map_of_mem (fun r => r.asin) hq)
    · exact ih _ p hpt hnd.2

/-- Claim C3: when exactly one rank crashes during processing, only that
item is skipped: the output is the assembly of every other item in
order, the ranks of the output are the original 1-based ranks with only
the crashed slot missing (no renumbering), and every output item is in
the final store. -/
theorem fault_isolation_contract (detail : ℕ → Details) (i : ℕ) (asins : List String)
    (ht : ∀ r, ¬(detail r).title = none) (hnd : asins.Nodup) :
    ((processFrom (fun r => if r = i then ItemStep.crash else ItemStep.result (detail r))
        (fun _ => false) 1 asins []).1 =
      (asins.enumFrom 1).filterMap (fun ra =>
        if ra.1 = i then none else some (assembleProduct ra.2 ra.1 (detail ra.1)))) ∧
    ((processFrom (fun r => if r = i then ItemStep.crash else ItemStep.result (detail r))
        (fun _ => false) 1 asins []).1.map (fun p => p.rank) =
      (List.range' 1 asins.length).filter (fun r => !(r == i))) ∧
    (∀ p ∈ (processFrom (fun r => if r = i then ItemStep.crash else ItemStep.result (detail r))
        (fun _ => false) 1 asins []).1,
      p ∈ (processFrom (fun r => if r = i then ItemStep.crash else ItemStep.result (detail r))
        (fun _ => false) 1 asins []).2) := by
  refine ⟨?_, ?_, ?_⟩
  · rw [processFrom_products]
    apply List.filterMap_congr
    intro ra _
    by_cases hri : ra.1 = i
    · simp [hri]
    · simp [hri, ht ra.1]
  · rw [processFrom_ranks]
    apply List.filter_congr
    intro r _
    by_cases hri : r = i
    · simp [hri]
    · simp [hri, ht r]
  · intro p hp
    rw [processFrom_db]
    have hconv : (fun (acc : List ProductModel) (q : ProductModel) =>
        save_product ((fun _ => false) q.rank) acc q) = upsertRow := by
      funext acc q
      simp [save_product]
    rw [hconv]
    apply mem_foldl_upsert_self _ _ p hp
    exact ((processFrom_asins_sublist _ _ asins 1 []).nodup hnd)

/-- Witness for the C3 contract: five items with item 2 crashing yield
exactly the ranks 1, 3, 4, 5. -/
theorem fault_isolation_contract_witness :
    (processFrom (fun r => if r = 2 then ItemStep.crash
        else ItemStep.result { title := some "Widget" }) (fun _ => false) 1
        ["A1", "A2", "A3", "A4", "A5"] []).1.map (fun p => p.rank) = [1, 3, 4, 5] :=
  ((fault_isolation_contract (fun _ => { title := some "Widget" }) 2
      ["A1", "A2", "A3", "A4", "A5"]
      (fun _ h => Option.noConfusion h) (by decide)).2.1).trans (by decide)

/-- Counterexample to claim C8 as stated: one item is assembled, its
store write fails inside save_product, and the item nevertheless appears
in the batch's final output while the store stays empty. -/
theorem saved_output_counterexample :
    ¬((processFrom (fun _ => ItemStep.result { title := some "T" }) (fun _ => true) 1
        ["B000000001"] []).1 = []) ∧
    (processFrom (fun _ => ItemStep.result { title := some "T" }) (fun _ => true) 1
        ["B000000001"] []).2 = [] := by
  constructor
  · intro h
    rw [show (processFrom (fun _ => ItemStep.result { title := some "T" }) (fun _ => true) 1
        ["B000000001"] []).1 =
        [assembleProduct "B000000001" 1 { title := some "T" }] from rfl] at h
    cases h
  · rfl

/-- Claim C8 amended: every item of the batch's final output was
successfully assembled, and the output is independent of store-write
failures (and of the initial store), because save_product catches its
own failures; a failed write therefore leaves the item in the output and
only the store misses the row. -/
theorem saved_output_contract :
    (∀ step saveFails saveFails2 rank (asins : List String) db db2,
      (processFrom step saveFails rank asins db).1 =
        (processFrom step saveFails2 rank asins db2).1) ∧
    (∀ step saveFails rank (asins : List String) db p,
      p ∈ (processFrom step saveFails rank asins db).1 →
      ∃ r a d, step r = ItemStep.result d ∧ ¬d.title = none ∧
        p = assembleProduct a r d) := by
  constructor
  · intro step sf sf2 rank asins db db2
    rw [processFrom_products, processFrom_products]
  · intro step sf rank asins db p hp
    rw [processFrom_products] at hp
    rcases List.mem_filterMap.mp hp with ⟨ra, _, hra⟩
    cases hs : step ra.1 with
    | crash => rw [hs] at hra; cases hra
    | result d =>
      rw [hs] at hra
      dsimp only at hra
      by_cases htd : d.title = none
      · rw [if_pos htd] at hra; cases hra
      · rw [if_neg htd] at hra
        exact ⟨ra.1, ra.2, d, hs, htd, (Option.some.inj hra).symm⟩

/-- Witness for the amended C8 contract: the item of the counterexample
batch is indeed an assembled product. -/
theorem saved_output_contract_witness :
    ∃ r a d, (fun _ => ItemStep.result ({ title := some "Widget" } : Details)) r =
        ItemStep.result d ∧ ¬d.title = none ∧
      assembleProduct "B1" 1 { title := some "Widget" } = assembleProduct a r d :=
  saved_output_contract.2 (fun _ => ItemStep.result { title := some "Widget" })
    (fun _ => true) 1 ["B1"] [] (assembleProduct "B1" 1 { title := some "Widget" })
    (show assembleProduct "B1" 1 { title := some "Widget" } ∈
        [assembleProduct "B1" 1 { title := some "Widget" }] from
      List.mem_singleton_self _)

/-- Counterexample to claim C7 as stated: with a category URL supplied
and discovery failing, the process exit code is 0, not non-zero. -/
theorem exit_code_counterexample :
    (mainRun ["scraper.py", "https://www.amazon.com/zgbs/home-garden"] none
      (fun _ => ItemStep.crash) (fun _ => false)).1 = 0 := rfl

/-- Claim C7 amended: the CLI exits with the non-zero code 1 exactly when
no category URL argument is supplied; with a URL supplied the exit code
is always 0 — in particular a discovery failure is caught, yields the
empty product list and still exits 0. -/
theorem exit_code_contract :
    (∀ discovery step saveFails argv,
        (mainRun argv discovery step saveFails).1 = if argv.length < 2 then 1 else 0) ∧
    (∀ discovery step saveFails url,
        mainRun ["scraper.py", url] discovery step saveFails =
          (0, (scrape_top_products discovery 5 step saveFails).1)) ∧
    (∀ step saveFails url,
        mainRun ["scraper.py", url] none step saveFails = (0, [])) ∧
    (∀ discovery step saveFails argv,
        ¬(mainRun argv discovery step saveFails).1 = 0 ↔ argv.length < 2) := by
  refine ⟨?_, ?_, ?_, ?_⟩
  · intro discovery step saveFails argv
    unfold mainRun
    split <;> rfl
  · intro discovery step saveFails url
    rfl
  · intro step saveFails url
    rfl
  · intro discovery step saveFails argv
    unfold mainRun
    split
    case _ h => simpa using h
    case _ h => simpa using h

/-- Claim C6: the list price and discount are recorded exactly when the
extracted list price is truthy positive and the extracted price is
positive, the discount being (list - price) / list times 100 rounded to
two decimals; a non-positive price leaves both fields absent, and list
20 with price 15 gives discount 25. -/
theorem discount_contract :
    (∀ price t lp d, list_price_fields price t = (some lp, some d) →
        0 < price ∧ 0 < lp ∧ d = round2 ((lp - price) / lp * 100)) ∧
    (∀ price t,
        ((list_price_fields price t).1).isSome = ((list_price_fields price t).2).isSome) ∧
    (∀ price t, price ≤ 0 → list_price_fields price t = (none, none)) ∧
    (∀ price t lp, (extract_price_value (pyStrip t)).1 = some lp → 0 < lp → 0 < price →
        list_price_fields price (some t) =
          (some lp, some (round2 ((lp - price) / lp * 100)))) ∧
    (list_price_fields 15 (some ("$20.00".data)) = (some 20, some 25)) := by
  refine ⟨?_, ?_, ?_, ?_, ?_⟩
  · intro price t lp d h
    unfold list_price_fields at h
    split at h
    · cases h
    · split at h
      · cases h
      · split at h
        case _ hcond =>
          rw [Prod.mk.injEq] at h
          obtain ⟨h1, h2⟩ := h
          cases h1
          cases h2
          exact ⟨hcond.2.2, hcond.2.1, rfl⟩
        case _ => cases h
  · intro price t
    unfold list_price_fields
    split
    · rfl
    · split
      · rfl
      · split <;> rfl
  · intro price t hple
    unfold list_price_fields
    split
    · rfl
    · split
      · rfl
      · split
        case _ hcond => exact absurd hcond.2.2 (not_lt.mpr hple)
        case _ => rfl
  · intro price t lp hx hlp hpr
    simp only [list_price_fields]
    rw [hx]
    dsimp only
    rw [if_pos ⟨ne_of_gt hlp, hlp, hpr⟩]
  · have h20 : (extract_price_value (pyStrip ("$20.00".data))).1 = some 20 := by
      with_unfolding_all rfl
    have hval : round2 ((20 - 15) / 20 * 100) = 25 := by
      with_unfolding_all rfl
    simp only [list_price_fields]
    rw [h20]
    dsimp only
    rw [if_pos ⟨by norm_num, by norm_num, by norm_num⟩, hval]

/-- Witness for the C6 contract at list price 20 and price 15. -/
theorem discount_contract_witness :
    list_price_fields 15 (some ("$20.00".data)) =
      (some 20, some (round2 ((20 - 15) / 20 * 100))) :=
  discount_contract.2.2.2.1 15 ("$20.00".data) 20 (by with_unfolding_all rfl)
    (by norm_num) (by norm_num)

/-- Claim C9: the stats endpoint averages prices only over strictly
positive entries (zero and absent prices count in neither the sum nor
the denominator, so prices 0, 10, 20, 0 average to 15, not 7.5),
averages ratings only over non-null entries, and the prime count is the
number of rows whose flag is set. -/
theorem stats_contract :
    ((get_stats [{ price := some 0, rating := none, is_prime := false },
        { price := some 10, rating := none, is_prime := false },
        { price := some 20, rating := none, is_prime := false },
        { price := some 0, rating := none, is_prime := false }]).average_price = 15 ∧
      ¬(get_stats [{ price := some 0, rating := none, is_prime := false },
        { price := some 10, rating := none, is_prime := false },
        { price := some 20, rating := none, is_prime := false },
        { price := some 0, rating := none, is_prime := false }]).average_price = 75 / 10) ∧
    (∀ rows r, (r.price = some 0 ∨ r.price = none) →
        (get_stats (r :: rows)).average_price = (get_stats rows).average_price) ∧
    (∀ rows r, r.rating = none →
        (get_stats (r :: rows)).average_rating = (get_stats rows).average_rating) ∧
    (∀ rows, ¬positivePrices rows = [] →
        (get_stats rows).average_price =
          round2 ((positivePrices rows).sum / ((positivePrices rows).length : ℚ))) ∧
    (∀ rows, (get_stats rows).prime_products = (rows.filter (fun r => r.is_prime)).length) := by
  refine ⟨⟨?_, ?_⟩, ?_, ?_, ?_, ?_⟩
  · with_unfolding_all rfl
  · intro h
    have h15 : (15 : ℚ) = 75 / 10 := by
      rw [← h]
      with_unfolding_all rfl
    norm_num at h15
  · intro rows r hr
    have hp : positivePrices (r :: rows) = positivePrices rows := by
      unfold positivePrices
      rw [List.filterMap_cons]
      rcases hr with h0 | h0 <;> rw [h0] <;> simp
    simp only [get_stats]
    rw [hp]
  · intro rows r hr
    have hp : knownRatings (r :: rows) = knownRatings rows := by
      unfold knownRatings
      rw [List.filterMap_cons, hr]
    simp only [get_stats]
    rw [hp]
  · intro rows hne
    have hpos : ∀ v ∈ positivePrices rows, 0 < v := by
      intro v hv
      unfold positivePrices at hv
      rcases List.mem_filterMap.mp hv with ⟨r, _, hr⟩
      rcases hq : r.price with _ | w <;> rw [hq] at hr <;> dsimp only at hr
      · cases hr
      · by_cases hw : 0 < w
        · rw [if_pos hw] at hr
          cases hr
          exact hw
        · rw [if_neg hw] at hr
          cases hr
    have hsum : 0 < (positivePrices rows).sum :=
      List.sum_pos _ hpos hne
    have hlen : 0 < ((positivePrices rows).length : ℚ) := by
      have hl : 0 < (positivePrices rows).length := List.length_pos.mpr hne
      exact_mod_cast hl
    have havg : 0 < (positivePrices rows).sum / ((positivePrices rows).length : ℚ) :=
      div_pos hsum hlen
    simp only [get_stats, sqlAvg]
    rw [if_neg (by simpa using hne)]
    dsimp only
    rw [if_neg (ne_of_gt havg)]
  · intro rows
    simp only [get_stats]
    exact List.countP_eq_length_filter _ _

/-- Witness for the C9 contract: two rows with prices 0 and 10 have a
non-empty positive price set, so the average is taken over it. -/
theorem stats_contract_witness :
    (get_stats [{ price := some 0, rating := none, is_prime := false },
        { price := some 10, rating := none, is_prime := false }]).average_price =
      round2 ((positivePrices [{ price := some 0, rating := none, is_prime := false },
        { price := some 10, rating := none, is_prime := false }]).sum /
        ((positivePrices [{ price := some 0, rating := none, is_prime := false },
        { price := some 10, rating := none, is_prime := false }]).length : ℚ)) :=
  stats_contract.2.2.2.1 _ (by with_unfolding_all decide)

/-- Claim C10: when no stored row has a strictly positive price the stats
endpoint reports average price 0 (not null, not an error) in a success
response that still carries the total and prime counts, and likewise
average rating 0 when no row has a rating. -/
theorem stats_empty_contract :
    (∀ rows, (∀ r ∈ rows, ∀ v, r.price = some v → v ≤ 0) →
        (get_stats rows).average_price = 0 ∧ (get_stats rows).success = true ∧
        (get_stats rows).total_products = rows.length ∧
        (get_stats rows).prime_products = rows.countP (fun r => r.is_prime)) ∧
    (∀ rows, (∀ r ∈ rows, r.rating = none) → (get_stats rows).average_rating = 0) := by
  constructor
  · intro rows hle
    have hp : positivePrices rows = [] := by
      unfold positivePrices
      rw [List.filterMap_eq_nil_iff]
      intro r hr
      rcases hq : r.price with _ | w
      · simp [hq]
      · have hw := hle r hr w hq
        simp only [hq]
        rw [if_neg (not_lt.mpr hw)]
    refine ⟨?_, rfl, rfl, rfl⟩
    simp only [get_stats, sqlAvg]
    rw [if_pos (by simpa using hp)]
  · intro rows hr
    have hp : knownRatings rows = [] := by
      unfold knownRatings
      rw [List.filterMap_eq_nil_iff]
      exact hr
    simp only [get_stats, sqlAvg]
    rw [if_pos (by simpa using hp)]

/-- Witness for the C10 contract on a store whose only row has a null
price, a null rating and the prime flag set. -/
theorem stats_empty_contract_witness :
    (get_stats [{ price := none, rating := none, is_prime := true }]).average_price = 0 ∧
      (get_stats [{ price := none, rating := none, is_prime := true }]).success = true ∧
      (get_stats [{ price := none, rating := none, is_prime := true }]).total_products =
        [({ price := none, rating := none, is_prime := true } : DbRow)].length ∧
      (get_stats [{ price := none, rating := none, is_prime := true }]).prime_products =
        [({ price := none, rating := none, is_prime := true } : DbRow)].countP
          (fun r => r.is_prime) :=
  stats_empty_contract.1 [{ price := none, rating := none, is_prime := true }]
    (fun r hr v hv => by
      rcases List.mem_singleton.mp hr with h
      subst h
      cases hv)

end Scraper
